import Mathlib

/-!
Shallow embedding of the `otp` crate (`src/lib.rs`), an HOTP (RFC 4226) and
TOTP (RFC 6238) one-time-password library, together with theorems checking the
natural-language specification against it.

Modelling conventions:
* Machine integers (`u8`, `u32`, `u64`, `i32`, `i64`, `usize`) are embedded as
  `Nat`/`Int`, with an explicit `% 2 ^ w` exactly where the Rust arithmetic can
  wrap.  Bit operations (`&`, `|`, `<<`, `>>`) become `&&&`, `|||`, `<<<`,
  `>>>` on `Nat`.
* Byte buffers (`Vec<u8>`, `&[u8]`) are `List Nat`; theorems carry the byte
  bound `< 256` as a hypothesis where it matters.
* A Rust panic (slice index out of bounds, `Option::unwrap` on `None`,
  `assert!` failure, `%` by zero) is modelled as `none` of an `Option` result:
  the function does not return a value to its caller.
* External capabilities (the `ring` HMAC primitive and the `rand` random
  source) are taken as explicit function parameters, per the specification,
  which excludes them from the core.  The `base32` codec, also external, is
  modelled from the specification text (RFC 4648 alphabet, no padding).
-/

/-- Mirrors `enum HOTPAlgorithm` from `src/lib.rs`. -/
inductive HOTPAlgorithm where
  | HMACSHA1
  | HMACSHA256
  | HMACSHA512
deriving DecidableEq, Repr

/-- Mirrors `struct HOTPSecret`: raw key bytes plus the chosen algorithm. -/
structure HOTPSecret where
  secret : List Nat
  algorithm : HOTPAlgorithm
deriving DecidableEq, Repr

/-- Mirrors `HOTPSecret::get_algorithm` composed with `ring`'s
`Algorithm.output_len` constants (20 / 32 / 64 bytes for SHA1 / SHA256 /
SHA512, external facts of the `ring` digest algorithms). -/
def digest_output_len : HOTPAlgorithm → Nat
  | HOTPAlgorithm.HMACSHA1 => 20
  | HOTPAlgorithm.HMACSHA256 => 32
  | HOTPAlgorithm.HMACSHA512 => 64

/-- Mirrors `HOTPSecret::generate_secret`: pushes `size` bytes, each obtained
as `rng.next_u32() as u8` (truncation of a random `u32` to its low byte).  The
random source is the external capability `rng`, here an arbitrary stream of
draws indexed by position. -/
def HOTPSecret.generate_secret (rng : Nat → Nat) (size : Nat) : List Nat :=
  (List.range size).map (fun i => rng i % 256)

/-- Mirrors `HOTPSecret::new_htop`: a fresh secret of the algorithm's natural
digest length, filled from the random capability. -/
def HOTPSecret.new_htop (rng : Nat → Nat) (algorithm : HOTPAlgorithm) : HOTPSecret :=
  { secret := HOTPSecret.generate_secret rng (digest_output_len algorithm)
    algorithm := algorithm }

/-- Mirrors `HOTPSecret::from_bin`: stores the bytes verbatim. -/
def HOTPSecret.from_bin (data : List Nat) (algorithm : HOTPAlgorithm) : HOTPSecret :=
  { secret := data, algorithm := algorithm }

/-- Modelled from the spec: the external base32 capability's alphabet,
`Base32Encode` side — the standard RFC 4648 alphabet maps the quintet values
0–25 to the letters A–Z and 26–31 to the digits 2–7. -/
def base32_char_of (q : Nat) : Char :=
  if q < 26 then Char.ofNat (65 + q) else Char.ofNat (50 + (q - 26))

/-- Modelled from the spec: the external base32 capability's alphabet,
`Base32Decode` side — a character outside the RFC 4648 alphabet has no quintet
value. -/
def base32_val (c : Char) : Option Nat :=
  if 'A' ≤ c ∧ c ≤ 'Z' then some (c.toNat - 65)
  else if '2' ≤ c ∧ c ≤ '7' then some (c.toNat - 24)
  else none

/-- Modelled from the spec: the external base32 capability, bit-gathering
phase of `Base32Encode` — bytes are split MSB-first into 5-bit groups, the
last group zero-padded, five-byte blocks yielding eight quintets. -/
def encodeQuintets : List Nat → List Nat
  | b0 :: b1 :: b2 :: b3 :: b4 :: rest =>
      b0 / 8 :: (b0 % 8 * 4 + b1 / 64) :: (b1 / 2 % 32) :: (b1 % 2 * 16 + b2 / 16) ::
      (b2 % 16 * 2 + b3 / 128) :: (b3 / 4 % 32) :: (b3 % 4 * 8 + b4 / 32) :: (b4 % 32) ::
      encodeQuintets rest
  | [b0] => [b0 / 8, b0 % 8 * 4]
  | [b0, b1] => [b0 / 8, b0 % 8 * 4 + b1 / 64, b1 / 2 % 32, b1 % 2 * 16]
  | [b0, b1, b2] => [b0 / 8, b0 % 8 * 4 + b1 / 64, b1 / 2 % 32, b1 % 2 * 16 + b2 / 16,
      b2 % 16 * 2]
  | [b0, b1, b2, b3] => [b0 / 8, b0 % 8 * 4 + b1 / 64, b1 / 2 % 32, b1 % 2 * 16 + b2 / 16,
      b2 % 16 * 2 + b3 / 128, b3 / 4 % 32, b3 % 4 * 8]
  | [] => []

/-- Modelled from the spec: the external base32 capability, bit-gathering
phase of `Base32Decode` — quintets are reassembled MSB-first and the complete
bytes are kept, trailing padding bits being dropped. -/
def decodeQuintets : List Nat → List Nat
  | q0 :: q1 :: q2 :: q3 :: q4 :: q5 :: q6 :: q7 :: rest =>
      (q0 * 8 + q1 / 4) :: (q1 % 4 * 64 + q2 * 2 + q3 / 16) :: (q3 % 16 * 16 + q4 / 2) ::
      (q4 % 2 * 128 + q5 * 4 + q6 / 8) :: (q6 % 8 * 32 + q7) ::
      decodeQuintets rest
  | [] => []
  | [_] => []
  | [q0, q1] => [q0 * 8 + q1 / 4]
  | [q0, q1, _] => [q0 * 8 + q1 / 4]
  | [q0, q1, q2, q3] => [q0 * 8 + q1 / 4, q1 % 4 * 64 + q2 * 2 + q3 / 16]
  | [q0, q1, q2, q3, q4] => [q0 * 8 + q1 / 4, q1 % 4 * 64 + q2 * 2 + q3 / 16,
      q3 % 16 * 16 + q4 / 2]
  | [q0, q1, q2, q3, q4, _] => [q0 * 8 + q1 / 4, q1 % 4 * 64 + q2 * 2 + q3 / 16,
      q3 % 16 * 16 + q4 / 2]
  | [q0, q1, q2, q3, q4, q5, q6] => [q0 * 8 + q1 / 4, q1 % 4 * 64 + q2 * 2 + q3 / 16,
      q3 % 16 * 16 + q4 / 2, q4 % 2 * 128 + q5 * 4 + q6 / 8]

/-- Maps every character of the input to its quintet value, failing on the
first character outside the alphabet (the validity scan of the external
decoder). -/
def charsToQuintets : List Char → Option (List Nat)
  | [] => some []
  | c :: rest =>
      match base32_val c, charsToQuintets rest with
      | some q, some qs => some (q :: qs)
      | _, _ => none

/-- Modelled from the spec: `Base32Encode(bytes) → text`, RFC 4648 alphabet,
emitted without padding. -/
def base32_encode (bytes : List Nat) : List Char :=
  (encodeQuintets bytes).map base32_char_of

/-- Modelled from the spec: `Base32Decode(text) → bytes`, RFC 4648 alphabet,
no padding; `none` when the text has a character outside the alphabet. -/
def base32_decode (s : List Char) : Option (List Nat) :=
  match charsToQuintets s with
  | some qs => some (decodeQuintets qs)
  | none => none

/-- Mirrors `HOTPSecret::from_base32`.  The source calls
`base32::decode(...).unwrap()`: when the decode fails, `unwrap` panics and the
program aborts.  Here `none` models that panic — no error value reaches the
caller (the Rust signature returns a bare `HOTPSecret`, not a `Result`). -/
def HOTPSecret.from_base32 (data : List Char) (algorithm : HOTPAlgorithm) : Option HOTPSecret :=
  match base32_decode data with
  | some bytes => some { secret := bytes, algorithm := algorithm }
  | none => none

/-- Mirrors `HOTPSecret::get_secret_base32`: exports the key through the
external base32 encoder. -/
def HOTPSecret.get_secret_base32 (s : HOTPSecret) : List Char :=
  base32_encode s.secret

/-- Mirrors `HOTPSecret::get_hotp_value`, the RFC 4226 §5.3 dynamic
truncation.  `data[data.len() - 1]` panics on an empty slice and each
`data[offset + i]` panics when out of bounds; both panics are modelled as
`none`.  All four indices are in bounds exactly when `offset + 3` is, so one
test models the four checks.  The `u32` arithmetic never wraps here: the
masked leading byte keeps the value below `2 ^ 31`. -/
def get_hotp_value (data : List Nat) : Option Nat :=
  if data.length = 0 then none
  else
    let offset := data.getD (data.length - 1) 0 &&& 0x0f
    if offset + 3 < data.length then
      some (((((data.getD offset 0 &&& 0x7f) <<< 24) |||
              ((data.getD (offset + 1) 0 &&& 0xff) <<< 16)) |||
              ((data.getD (offset + 2) 0 &&& 0xff) <<< 8)) |||
              (data.getD (offset + 3) 0 &&& 0xff))
    else none

/-- Specification-side statement of dynamic truncation, following the words of
the spec: the offset is the low nibble of the final digest byte; the four
bytes starting there are assembled big-endian, the most-significant bit of the
first masked to zero. -/
def dt_assemble (data : List Nat) : Nat :=
  let offset := data.getD (data.length - 1) 0 % 16
  (data.getD offset 0 % 128) * 2 ^ 24 + (data.getD (offset + 1) 0 % 256) * 2 ^ 16 +
    (data.getD (offset + 2) 0 % 256) * 2 ^ 8 + data.getD (offset + 3) 0 % 256

/-- Mirrors `HOTPSecret::get_otp`.  The HMAC primitive (`ring::hmac`) is the
external capability `hmacF`, taking the key and the message.  The modulus
`10u32.pow(digits)` is embedded as `10 ^ digits % 2 ^ 32`, the wrapping
(release-profile) semantics of `u32` exponentiation; when that wrapped value
is zero (`digits ≥ 32`) the Rust `%` is a remainder by zero, which panics in
every build profile, modelled as `none`. -/
def HOTPSecret.get_otp (hmacF : List Nat → List Nat → List Nat) (s : HOTPSecret)
    (counter : List Nat) (digits : Nat) : Option Nat :=
  match get_hotp_value (hmacF s.secret counter) with
  | none => none
  | some num =>
      let m := 10 ^ digits % 2 ^ 32
      if m = 0 then none else some (num % m)

/-- Mirrors `struct TOTP`: a secret plus the step and epoch-offset parameters. -/
structure TOTP where
  secret : HOTPSecret
  time_step : Nat
  start_time : Nat
deriving DecidableEq, Repr

/-- Mirrors `TOTP::new_totp`: `assert!(time_step > 0)` panics when the step is
zero (modelled as `none`); otherwise the fields are stored unchanged. -/
def new_totp (secret : HOTPSecret) (time_step start_time : Nat) : Option TOTP :=
  if 0 < time_step then
    some { secret := secret, time_step := time_step, start_time := start_time }
  else none

/-- Mirrors `TOTP::get_byte_at`: masks one byte of a `u64` and shifts it down;
the final `% 256` is the `as u8` truncation. -/
def TOTP.get_byte_at (num : Nat) (idx : Nat) : Nat :=
  ((num &&& (0xff <<< (idx * 8))) >>> (idx * 8)) % 256

/-- Mirrors `TOTP::get_time`: `(now.as_secs() + self.start_time) / self.time_step`
in `u64` arithmetic.  The wall clock is the external parameter `now` (seconds
since the Unix epoch).  The `% 2 ^ 64` is the `u64` wrap of the addition; the
division is by `time_step`, positive for every constructed `TOTP`. -/
def TOTP.get_time (t : TOTP) (now : Nat) : Nat :=
  ((now + t.start_time) % 2 ^ 64) / t.time_step

/-- Mirrors an `as u64` reinterpretation of a signed 64-bit quantity:
two's-complement wraparound modulo `2 ^ 64`. -/
def as_u64 (i : Int) : Nat :=
  (i % (2 ^ 64 : Int)).toNat

/-- Mirrors `((self.get_time() as i64) + (offset as i64)) as u64` from
`TOTP::get_otp`: the step index (a `u64` below `2 ^ 64`) is reinterpreted as
`i64`, the signed offset added (wrapping semantics), and the sum reinterpreted
as `u64`; the composite is addition modulo `2 ^ 64` on the signed sum. -/
def effective_counter (t : Nat) (offset : Int) : Nat :=
  as_u64 ((t : Int) + offset)

/-- Mirrors `TOTP::num_to_buffer`: the eight bytes of a `u64`, most
significant first. -/
def TOTP.num_to_buffer (num : Nat) : List Nat :=
  [TOTP.get_byte_at num 7, TOTP.get_byte_at num 6, TOTP.get_byte_at num 5,
   TOTP.get_byte_at num 4, TOTP.get_byte_at num 3, TOTP.get_byte_at num 2,
   TOTP.get_byte_at num 1, TOTP.get_byte_at num 0]

/-- Mirrors `TOTP::get_otp`: encodes the offset-adjusted step index and
delegates to `HOTPSecret::get_otp`.  `hmacF` and `now` are the external HMAC
and wall-clock capabilities. -/
def TOTP.get_otp (hmacF : List Nat → List Nat → List Nat) (t : TOTP) (now : Nat)
    (digits : Nat) (offset : Int) : Option Nat :=
  HOTPSecret.get_otp hmacF t.secret
    (TOTP.num_to_buffer (effective_counter (TOTP.get_time t now) offset)) digits

/-- Digest bytes of the truncation test vector from the spec and the source's
`test_dynamic_trunc`. -/
def rfc_digest : List Nat :=
  [31, 134, 152, 105, 14, 2, 202, 22, 97, 133, 80, 239, 127, 25, 218, 142, 148, 91, 85, 90]

/-! ## Bit-arithmetic bridge lemmas -/

/-- Bits below `k` are clear in a multiple of `2 ^ k`. -/
theorem testBit_eq_false_of_mod (x k i : Nat) (hx : x % 2 ^ k = 0) (hi : i < k) :
    x.testBit i = false := by
  have h := Nat.testBit_mod_two_pow x k i
  rw [hx, Nat.zero_testBit] at h
  simpa [hi] using h.symm

/-- Bits at or above `k` are clear in a number below `2 ^ k`. -/
theorem testBit_eq_false_of_lt_pow (y k i : Nat) (hy : y < 2 ^ k) (hi : k ≤ i) :
    y.testBit i = false :=
  Nat.testBit_lt_two_pow (lt_of_lt_of_le hy (Nat.pow_le_pow_right (by norm_num) hi))

/-- Disjoint bitwise or is addition: when the low `k` bits of `x` are clear
and `y` fits in `k` bits, `x ||| y = x + y`. -/
theorem lor_eq_add (x y k : Nat) (hx : x % 2 ^ k = 0) (hy : y < 2 ^ k) :
    x ||| y = x + y := by
  have hmod : (x ||| y) % 2 ^ k = y := by
    have hyy : y % 2 ^ k = y := Nat.mod_eq_of_lt hy
    apply Nat.eq_of_testBit_eq
    intro i
    rw [Nat.testBit_mod_two_pow, Nat.testBit_or]
    by_cases hik : i < k
    · simp [hik, testBit_eq_false_of_mod x k i hx hik]
    · simp [hik, testBit_eq_false_of_lt_pow y k i hy (le_of_not_lt hik)]
  have hdiv : (x ||| y) / 2 ^ k = x / 2 ^ k := by
    rw [← Nat.shiftRight_eq_div_pow, ← Nat.shiftRight_eq_div_pow]
    apply Nat.eq_of_testBit_eq
    intro i
    rw [Nat.testBit_shiftRight, Nat.testBit_shiftRight, Nat.testBit_or,
      testBit_eq_false_of_lt_pow y k (k + i) hy (Nat.le_add_right k i)]
    simp
  have hcancel : 2 ^ k * (x / 2 ^ k) = x :=
    Nat.mul_div_cancel' (Nat.dvd_of_mod_eq_zero hx)
  have htotal := Nat.div_add_mod (x ||| y) (2 ^ k)
  rw [hdiv, hmod, hcancel] at htotal
  exact htotal.symm

/-- Masking with a shifted mask and shifting down equals shifting down and
masking. -/
theorem and_shiftLeft_shiftRight (x m k : Nat) :
    (x &&& (m <<< k)) >>> k = (x >>> k) &&& m := by
  apply Nat.eq_of_testBit_eq
  intro i
  rw [Nat.testBit_shiftRight, Nat.testBit_and, Nat.testBit_shiftLeft,
    Nat.testBit_and, Nat.testBit_shiftRight]
  have h1 : k + i ≥ k := Nat.le_add_right k i
  have h2 : k + i - k = i := by omega
  simp [h1, h2]

/-- Closed form of `TOTP::get_byte_at`: it extracts byte `idx` (counting from
the least significant end) of `num`. -/
theorem get_byte_at_eq (num idx : Nat) :
    TOTP.get_byte_at num idx = num / 2 ^ (idx * 8) % 256 := by
  have h255 := Nat.and_pow_two_sub_one_eq_mod (num >>> (idx * 8)) 8
  norm_num at h255
  unfold TOTP.get_byte_at
  rw [and_shiftLeft_shiftRight, h255, Nat.shiftRight_eq_div_pow]
  generalize num / 2 ^ (idx * 8) = v
  omega

/-! ## Dynamic truncation helpers -/

/-- Nibble mask as a remainder. -/
theorem and_mask_0f (x : Nat) : x &&& 0x0f = x % 16 := by
  have h := Nat.and_pow_two_sub_one_eq_mod x 4
  norm_num at h
  exact h

/-- Sign-bit mask as a remainder. -/
theorem and_mask_7f (x : Nat) : x &&& 0x7f = x % 128 := by
  have h := Nat.and_pow_two_sub_one_eq_mod x 7
  norm_num at h
  exact h

/-- Byte mask as a remainder. -/
theorem and_mask_ff (x : Nat) : x &&& 0xff = x % 256 := by
  have h := Nat.and_pow_two_sub_one_eq_mod x 8
  norm_num at h
  exact h

/-- Offset bound: the offset taken from the low nibble of the final byte is at
most 15, so in a digest of at least 20 bytes all four reads are in bounds. -/
theorem dt_offset_in_bounds (data : List Nat) (h20 : 20 ≤ data.length) :
    (data.getD (data.length - 1) 0 &&& 0x0f) + 3 < data.length := by
  have h := Nat.and_le_right (n := data.getD (data.length - 1) 0) (m := 0x0f)
  omega

/-- On any digest of at least 20 bytes the truncation takes its success
branch. -/
theorem get_hotp_value_isSome (data : List Nat) (h20 : 20 ≤ data.length) :
    (get_hotp_value data).isSome = true := by
  have h0 : ¬ data.length = 0 := by omega
  have hb := dt_offset_in_bounds data h20
  simp only [get_hotp_value, h0, if_false, hb, if_true, Option.isSome_some]

/-- Refinement of the code's dynamic truncation by the specification's
big-endian description, together with the 31-bit bound. -/
theorem get_hotp_value_eq_dt (data : List Nat) (h20 : 20 ≤ data.length)
    (hby : ∀ x ∈ data, x < 256) :
    get_hotp_value data = some (dt_assemble data) ∧ dt_assemble data < 2 ^ 31 := by
  have h0 : ¬ data.length = 0 := by omega
  have hb := dt_offset_in_bounds data h20
  have hoff : data.getD (data.length - 1) 0 &&& 0x0f = data.getD (data.length - 1) 0 % 16 :=
    and_mask_0f _
  set off := data.getD (data.length - 1) 0 % 16 with hoffdef
  rw [hoff] at hb
  have ha : data.getD off 0 < 256 := by
    rw [List.getD_eq_getElem data 0 (by omega)]
    exact hby _ (List.getElem_mem _)
  have hb1 : data.getD (off + 1) 0 < 256 := by
    rw [List.getD_eq_getElem data 0 (by omega)]
    exact hby _ (List.getElem_mem _)
  have hc : data.getD (off + 2) 0 < 256 := by
    rw [List.getD_eq_getElem data 0 (by omega)]
    exact hby _ (List.getElem_mem _)
  have hd : data.getD (off + 3) 0 < 256 := by
    rw [List.getD_eq_getElem data 0 (by omega)]
    exact hby _ (List.getElem_mem _)
  set a := data.getD off 0
  set b := data.getD (off + 1) 0
  set c := data.getD (off + 2) 0
  set d := data.getD (off + 3) 0
  have hmask7f : a &&& 0x7f = a % 128 := and_mask_7f a
  have hmaskff : ∀ x : Nat, x &&& 0xff = x % 256 := and_mask_ff
  have hsum : ((((a &&& 0x7f) <<< 24) ||| ((b &&& 0xff) <<< 16)) |||
      ((c &&& 0xff) <<< 8)) ||| (d &&& 0xff) =
      (a % 128) * 2 ^ 24 + (b % 256) * 2 ^ 16 + (c % 256) * 2 ^ 8 + d % 256 := by
    rw [hmask7f, hmaskff b, hmaskff c, hmaskff d]
    rw [Nat.shiftLeft_eq, Nat.shiftLeft_eq, Nat.shiftLeft_eq]
    have e1 : (a % 128) * 2 ^ 24 ||| (b % 256) * 2 ^ 16 =
        (a % 128) * 2 ^ 24 + (b % 256) * 2 ^ 16 :=
      lor_eq_add _ _ 24 (by omega) (by omega)
    have e2 : ((a % 128) * 2 ^ 24 + (b % 256) * 2 ^ 16) ||| (c % 256) * 2 ^ 8 =
        (a % 128) * 2 ^ 24 + (b % 256) * 2 ^ 16 + (c % 256) * 2 ^ 8 :=
      lor_eq_add _ _ 16 (by omega) (by omega)
    have e3 : ((a % 128) * 2 ^ 24 + (b % 256) * 2 ^ 16 + (c % 256) * 2 ^ 8) ||| d % 256 =
        (a % 128) * 2 ^ 24 + (b % 256) * 2 ^ 16 + (c % 256) * 2 ^ 8 + d % 256 :=
      lor_eq_add _ _ 8 (by omega) (by omega)
    rw [e1, e2, e3]
  constructor
  · simp only [get_hotp_value, h0, if_false, hoff, ← hoffdef, hb, if_true, dt_assemble]
    rw [hsum]
  · simp only [dt_assemble, ← hoffdef]
    omega

/-! ## Base32 round-trip helpers -/

/-- Every quintet produced by encoding a byte list is below 32. -/
theorem encodeQuintets_lt (l : List Nat) (h : ∀ b ∈ l, b < 256) :
    ∀ q ∈ encodeQuintets l, q < 32 := by
  induction l using encodeQuintets.induct with
  | case1 b0 b1 b2 b3 b4 rest ih =>
    have h0 : b0 < 256 := h b0 (by simp)
    have h1 : b1 < 256 := h b1 (by simp)
    have h2 : b2 < 256 := h b2 (by simp)
    have h3 : b3 < 256 := h b3 (by simp)
    have h4 : b4 < 256 := h b4 (by simp)
    have hrest := ih (fun b hb => h b (by simp [hb]))
    intro q hq
    simp only [encodeQuintets, List.mem_cons] at hq
    rcases hq with rfl | rfl | rfl | rfl | rfl | rfl | rfl | rfl | hq
    all_goals first
      | omega
      | exact hrest q hq
  | case2 b0 =>
    have h0 : b0 < 256 := h b0 (by simp)
    intro q hq
    simp only [encodeQuintets, List.mem_cons, List.not_mem_nil, or_false] at hq
    rcases hq with rfl | rfl <;> omega
  | case3 b0 b1 =>
    have h0 : b0 < 256 := h b0 (by simp)
    have h1 : b1 < 256 := h b1 (by simp)
    intro q hq
    simp only [encodeQuintets, List.mem_cons, List.not_mem_nil, or_false] at hq
    rcases hq with rfl | rfl | rfl | rfl <;> omega
  | case4 b0 b1 b2 =>
    have h0 : b0 < 256 := h b0 (by simp)
    have h1 : b1 < 256 := h b1 (by simp)
    have h2 : b2 < 256 := h b2 (by simp)
    intro q hq
    simp only [encodeQuintets, List.mem_cons, List.not_mem_nil, or_false] at hq
    rcases hq with rfl | rfl | rfl | rfl | rfl <;> omega
  | case5 b0 b1 b2 b3 =>
    have h0 : b0 < 256 := h b0 (by simp)
    have h1 : b1 < 256 := h b1 (by simp)
    have h2 : b2 < 256 := h b2 (by simp)
    have h3 : b3 < 256 := h b3 (by simp)
    intro q hq
    simp only [encodeQuintets, List.mem_cons, List.not_mem_nil, or_false] at hq
    rcases hq with rfl | rfl | rfl | rfl | rfl | rfl | rfl <;> omega
  | case6 =>
    intro q hq
    simp [encodeQuintets] at hq

/-- Decoding the quintets of an encoded byte list recovers the bytes. -/
theorem decodeQuintets_encodeQuintets (l : List Nat) (h : ∀ b ∈ l, b < 256) :
    decodeQuintets (encodeQuintets l) = l := by
  induction l using encodeQuintets.induct with
  | case1 b0 b1 b2 b3 b4 rest ih =>
    have h0 : b0 < 256 := h b0 (by simp)
    have h1 : b1 < 256 := h b1 (by simp)
    have h2 : b2 < 256 := h b2 (by simp)
    have h3 : b3 < 256 := h b3 (by simp)
    have h4 : b4 < 256 := h b4 (by simp)
    have hrest := ih (fun b hb => h b (by simp [hb]))
    simp only [encodeQuintets, decodeQuintets, hrest, List.cons.injEq, and_true, and_self]
    omega
  | case2 b0 =>
    have h0 : b0 < 256 := h b0 (by simp)
    simp only [encodeQuintets, decodeQuintets, List.cons.injEq, and_true, and_self]
    omega
  | case3 b0 b1 =>
    have h0 : b0 < 256 := h b0 (by simp)
    have h1 : b1 < 256 := h b1 (by simp)
    simp only [encodeQuintets, decodeQuintets, List.cons.injEq, and_true, and_self]
    omega
  | case4 b0 b1 b2 =>
    have h0 : b0 < 256 := h b0 (by simp)
    have h1 : b1 < 256 := h b1 (by simp)
    have h2 : b2 < 256 := h b2 (by simp)
    simp only [encodeQuintets, decodeQuintets, List.cons.injEq, and_true, and_self]
    omega
  | case5 b0 b1 b2 b3 =>
    have h0 : b0 < 256 := h b0 (by simp)
    have h1 : b1 < 256 := h b1 (by simp)
    have h2 : b2 < 256 := h b2 (by simp)
    have h3 : b3 < 256 := h b3 (by simp)
    simp only [encodeQuintets, decodeQuintets, List.cons.injEq, and_true, and_self]
    omega
  | case6 =>
    rfl

/-- The alphabet mapping is invertible on quintet values. -/
theorem base32_val_char_of (q : Nat) (h : q < 32) :
    base32_val (base32_char_of q) = some q := by
  interval_cases q <;> decide

/-- Scanning the characters written by the encoder recovers the quintets. -/
theorem charsToQuintets_map (qs : List Nat) (h : ∀ q ∈ qs, q < 32) :
    charsToQuintets (qs.map base32_char_of) = some qs := by
  induction qs with
  | nil => rfl
  | cons q rest ih =>
    have hq : q < 32 := h q (by simp)
    have hrest := ih (fun x hx => h x (by simp [hx]))
    simp only [List.map_cons, charsToQuintets, base32_val_char_of q hq, hrest]

/-! ## Claim theorems -/

/-- C1: dynamic truncation is computed exactly as RFC 4226 §5.3 prescribes —
for every digest of at least 20 bytes the offset is the low nibble of the
final byte, the four bytes starting there are assembled big-endian with the
most-significant bit of the first byte masked to zero, yielding a 31-bit
value; and on the digest `[31, 134, …, 85, 90]` it returns `0x50EF7F19`. -/
theorem c1_dynamic_truncation :
    (∀ data : List Nat, 20 ≤ data.length → (∀ x ∈ data, x < 256) →
      get_hotp_value data = some (dt_assemble data) ∧ dt_assemble data < 2 ^ 31) ∧
    get_hotp_value rfc_digest = some 0x50EF7F19 :=
  ⟨get_hotp_value_eq_dt, by decide⟩

/-- Witness for C1 at the concrete RFC digest. -/
theorem c1_dynamic_truncation_witness :
    get_hotp_value rfc_digest = some (dt_assemble rfc_digest) ∧
      dt_assemble rfc_digest < 2 ^ 31 :=
  c1_dynamic_truncation.1 rfc_digest (by decide) (by decide)

/-- C7: dynamic truncation never indexes out of bounds — on every digest of at
least 20 bytes the offset is at most 15, the last access `hmac[offset + 3]` is
still inside the digest, and the computation reaches its success branch (the
panic branch is unreachable). -/
theorem c7_truncation_in_bounds :
    ∀ data : List Nat, 20 ≤ data.length →
      (data.getD (data.length - 1) 0 &&& 0x0f) ≤ 15 ∧
      (data.getD (data.length - 1) 0 &&& 0x0f) + 3 < data.length ∧
      (get_hotp_value data).isSome = true :=
  fun data h =>
    ⟨Nat.and_le_right, dt_offset_in_bounds data h, get_hotp_value_isSome data h⟩

/-- Witness for C7 at the concrete RFC digest. -/
theorem c7_truncation_in_bounds_witness :
    (rfc_digest.getD (rfc_digest.length - 1) 0 &&& 0x0f) ≤ 15 ∧
      (rfc_digest.getD (rfc_digest.length - 1) 0 &&& 0x0f) + 3 < rfc_digest.length ∧
      (get_hotp_value rfc_digest).isSome = true :=
  c7_truncation_in_bounds rfc_digest (by decide)

/-- C2 counterexample: the claim fails at `digits = 32`.  `10u32.pow(32)`
wraps to zero (release profile; the debug profile already panics in `pow`),
and the remainder by zero panics in every profile, so `Compute-OTP` returns no
integer at all — refuting the claim for every `digits ≥ 1`. -/
theorem c2_counterexample :
    HOTPSecret.get_otp (fun _ _ => rfc_digest)
      { secret := [], algorithm := HOTPAlgorithm.HMACSHA1 } [0, 0, 0, 0, 0, 0, 0, 1] 32 =
      none := by decide

/-- C2 (amended): for every secret, counter, valid digest and `1 ≤ digits ≤ 31`
(so that the wrapped `u32` modulus `10u32.pow(digits)` is nonzero),
`Compute-OTP` returns an integer in `[0, 10 ^ digits)`; in particular in
`[0, 10 ^ 6)` for 6 digits and `[0, 10 ^ 8)` for 8. -/
theorem c2_otp_range :
    ∀ (hmacF : List Nat → List Nat → List Nat) (s : HOTPSecret) (counter : List Nat)
      (digits : Nat),
      20 ≤ (hmacF s.secret counter).length →
      (∀ x ∈ hmacF s.secret counter, x < 256) →
      1 ≤ digits → digits ≤ 31 →
      ∃ r, HOTPSecret.get_otp hmacF s counter digits = some r ∧ r < 10 ^ digits := by
  intro hmacF s counter digits hlen hby h1 h31
  obtain ⟨heq, hlt⟩ := get_hotp_value_eq_dt (hmacF s.secret counter) hlen hby
  have hm0 : ¬ 10 ^ digits % 4294967296 = 0 := by interval_cases digits <;> decide
  refine ⟨dt_assemble (hmacF s.secret counter) % (10 ^ digits % 2 ^ 32), ?_, ?_⟩
  · simp [HOTPSecret.get_otp, heq, hm0]
  · generalize dt_assemble (hmacF s.secret counter) = v at hlt ⊢
    interval_cases digits <;> (norm_num; omega)

/-- Witness for C2 (amended) at a concrete digest and `digits = 6`. -/
theorem c2_otp_range_witness :
    ∃ r, HOTPSecret.get_otp (fun _ _ => rfc_digest)
      { secret := [], algorithm := HOTPAlgorithm.HMACSHA1 } [0, 0, 0, 0, 0, 0, 0, 1] 6 =
        some r ∧ r < 10 ^ 6 :=
  c2_otp_range _ _ _ 6 (by decide) (by decide) (by decide) (by decide)

/-- C3 counterexample: on the text `"1"`, whose only character lies outside
the RFC 4648 alphabet, `from_base32` reaches the `unwrap` panic (modelled as
`none`): the program aborts and no recoverable `DecodeError` value is handed
to the caller — the Rust signature returns a bare `HOTPSecret`, so no error
can be surfaced. -/
theorem c3_counterexample :
    HOTPSecret.from_base32 ['1'] HOTPAlgorithm.HMACSHA1 = none := by decide

/-- C3 (amended): `Create-from-base32` decodes with the standard unpadded
base32 alphabet, and whenever the text contains a character outside that
alphabet the decode fails and the constructor panics via `unwrap` (the program
aborts); the failure is not surfaced to the caller as a recoverable error. -/
theorem c3_invalid_char_panics :
    ∀ (pre post : List Char) (c : Char) (alg : HOTPAlgorithm),
      base32_val c = none →
      HOTPSecret.from_base32 (pre ++ c :: post) alg = none := by
  intro pre post c alg hc
  have hq : charsToQuintets (pre ++ c :: post) = none := by
    induction pre with
    | nil =>
      cases h2 : charsToQuintets post <;> simp [charsToQuintets, hc, h2]
    | cons p rest ih =>
      rw [List.cons_append]
      simp only [charsToQuintets, ih]
      cases base32_val p <;> rfl
  simp [HOTPSecret.from_base32, base32_decode, hq]

/-- Witness for C3 (amended) at the single out-of-alphabet character. -/
theorem c3_invalid_char_panics_witness :
    base32_val '@' = none ∧
      HOTPSecret.from_base32 ([] ++ '@' :: []) HOTPAlgorithm.HMACSHA1 = none :=
  ⟨by decide, c3_invalid_char_panics [] [] '@' HOTPAlgorithm.HMACSHA1 (by decide)⟩

/-- C4: the time-to-counter mapping computes the step index as
`(now + start_time) / time_step` with integer division — the epoch shift comes
before the division — and matches the six RFC 6238 wall-clock vectors at
`time_step = 30`, `start_time = 0`. -/
theorem c4_time_to_counter :
    (∀ (t : TOTP) (now : Nat), now + t.start_time < 2 ^ 64 →
      TOTP.get_time t now = (now + t.start_time) / t.time_step) ∧
    TOTP.get_time ⟨⟨[], HOTPAlgorithm.HMACSHA1⟩, 30, 0⟩ 59 = 1 ∧
    TOTP.get_time ⟨⟨[], HOTPAlgorithm.HMACSHA1⟩, 30, 0⟩ 1111111109 = 0x023523EC ∧
    TOTP.get_time ⟨⟨[], HOTPAlgorithm.HMACSHA1⟩, 30, 0⟩ 1111111111 = 0x023523ED ∧
    TOTP.get_time ⟨⟨[], HOTPAlgorithm.HMACSHA1⟩, 30, 0⟩ 1234567890 = 0x0273EF07 ∧
    TOTP.get_time ⟨⟨[], HOTPAlgorithm.HMACSHA1⟩, 30, 0⟩ 2000000000 = 0x03F940AA ∧
    TOTP.get_time ⟨⟨[], HOTPAlgorithm.HMACSHA1⟩, 30, 0⟩ 20000000000 = 0x27BC86AA := by
  refine ⟨?_, by decide, by decide, by decide, by decide, by decide, by decide⟩
  intro t now h
  unfold TOTP.get_time
  rw [Nat.mod_eq_of_lt h]

/-- Witness for C4 at wall-clock second 59. -/
theorem c4_time_to_counter_witness :
    TOTP.get_time ⟨⟨[], HOTPAlgorithm.HMACSHA1⟩, 30, 0⟩ 59 = (59 + 0) / 30 :=
  c4_time_to_counter.1 ⟨⟨[], HOTPAlgorithm.HMACSHA1⟩, 30, 0⟩ 59 (by decide)

/-- C5: the effective counter is encoded as exactly 8 bytes in big-endian
order — byte `i` (from the left) holds bits `63 − 8 i` down to `56 − 8 i` of
the 64-bit value, i.e. `n / 2 ^ (56 − 8 i) % 256` — and that buffer is what
`TOTP::get_otp` passes on to `HOTPSecret::get_otp`. -/
theorem c5_big_endian_encoding :
    (∀ n : Nat, n < 2 ^ 64 →
      TOTP.num_to_buffer n =
        [n / 2 ^ 56 % 256, n / 2 ^ 48 % 256, n / 2 ^ 40 % 256, n / 2 ^ 32 % 256,
         n / 2 ^ 24 % 256, n / 2 ^ 16 % 256, n / 2 ^ 8 % 256, n % 256]) ∧
    (∀ (hmacF : List Nat → List Nat → List Nat) (t : TOTP) (now digits : Nat)
      (offset : Int),
      TOTP.get_otp hmacF t now digits offset =
        HOTPSecret.get_otp hmacF t.secret
          (TOTP.num_to_buffer (effective_counter (TOTP.get_time t now) offset)) digits) := by
  refine ⟨?_, fun _ _ _ _ _ => rfl⟩
  intro n hn
  simp only [TOTP.num_to_buffer, get_byte_at_eq]
  norm_num

/-- Witness for C5 at a concrete 64-bit value. -/
theorem c5_big_endian_encoding_witness :
    81985529216486895 < 2 ^ 64 ∧
      TOTP.num_to_buffer 81985529216486895 =
        [81985529216486895 / 2 ^ 56 % 256, 81985529216486895 / 2 ^ 48 % 256,
         81985529216486895 / 2 ^ 40 % 256, 81985529216486895 / 2 ^ 32 % 256,
         81985529216486895 / 2 ^ 24 % 256, 81985529216486895 / 2 ^ 16 % 256,
         81985529216486895 / 2 ^ 8 % 256, 81985529216486895 % 256] :=
  ⟨by decide, c5_big_endian_encoding.1 81985529216486895 (by decide)⟩

/-- C6: constructing a `TOTP` with `time_step = 0` fails fatally at
construction (the `assert!` panic, modelled as `none`), before any OTP can be
computed; for every positive `time_step` the constructor succeeds and stores
the secret, step and start time unchanged. -/
theorem c6_totp_construction :
    (∀ (s : HOTPSecret) (t0 : Nat), new_totp s 0 t0 = none) ∧
    (∀ (s : HOTPSecret) (step t0 : Nat), 0 < step →
      new_totp s step t0 =
        some { secret := s, time_step := step, start_time := t0 }) := by
  refine ⟨fun s t0 => rfl, fun s step t0 h => ?_⟩
  simp [new_totp, h]

/-- Witness for C6 at `time_step = 30`. -/
theorem c6_totp_construction_witness :
    new_totp ⟨[], HOTPAlgorithm.HMACSHA1⟩ 30 0 =
      some { secret := ⟨[], HOTPAlgorithm.HMACSHA1⟩, time_step := 30, start_time := 0 } :=
  c6_totp_construction.2 ⟨[], HOTPAlgorithm.HMACSHA1⟩ 30 0 (by decide)

/-- C8: base32 export and import round-trip — wrapping any byte sequence,
exporting it with `get_secret_base32` and re-importing it with `from_base32`
yields a secret with the original key bytes. -/
theorem c8_base32_round_trip :
    ∀ (b : List Nat) (alg : HOTPAlgorithm), (∀ x ∈ b, x < 256) →
      HOTPSecret.from_base32
        (HOTPSecret.get_secret_base32 (HOTPSecret.from_bin b alg)) alg =
        some (HOTPSecret.from_bin b alg) := by
  intro b alg hb
  have hq := charsToQuintets_map (encodeQuintets b) (encodeQuintets_lt b hb)
  simp only [HOTPSecret.get_secret_base32, HOTPSecret.from_bin, base32_encode,
    HOTPSecret.from_base32, base32_decode, hq, decodeQuintets_encodeQuintets b hb]

/-- Witness for C8 at a concrete byte sequence. -/
theorem c8_base32_round_trip_witness :
    HOTPSecret.from_base32
      (HOTPSecret.get_secret_base32
        (HOTPSecret.from_bin [0, 255, 1, 2] HOTPAlgorithm.HMACSHA1))
      HOTPAlgorithm.HMACSHA1 =
      some (HOTPSecret.from_bin [0, 255, 1, 2] HOTPAlgorithm.HMACSHA1) :=
  c8_base32_round_trip [0, 255, 1, 2] HOTPAlgorithm.HMACSHA1 (by decide)

/-- C9: for every supported algorithm, a randomly created secret has the
algorithm's natural digest output length — 20 bytes for SHA1, 32 for SHA256
and 64 for SHA512 — whatever the random source returns. -/
theorem c9_random_secret_length :
    (∀ (rng : Nat → Nat) (alg : HOTPAlgorithm),
      (HOTPSecret.new_htop rng alg).secret.length = digest_output_len alg) ∧
    digest_output_len HOTPAlgorithm.HMACSHA1 = 20 ∧
    digest_output_len HOTPAlgorithm.HMACSHA256 = 32 ∧
    digest_output_len HOTPAlgorithm.HMACSHA512 = 64 := by
  refine ⟨?_, rfl, rfl, rfl⟩
  intro rng alg
  simp [HOTPSecret.new_htop, HOTPSecret.generate_secret]

/-- C10: when the step index plus a negative offset is below zero the code
neither clamps nor rejects — the signed sum is reinterpreted modulo `2 ^ 64`
(two's complement), so step index 0 with offset −1 encodes the counter
`0xFFFFFFFFFFFFFFFF`, and the OTP is computed from that encoding. -/
theorem c10_negative_counter_wraps :
    (∀ (t : Nat) (offset : Int), t < 2 ^ 63 → -(2 ^ 31) ≤ offset →
      (t : Int) + offset < 0 →
      effective_counter t offset = ((2 ^ 64 : Int) + ((t : Int) + offset)).toNat) ∧
    effective_counter 0 (-1) = 0xFFFFFFFFFFFFFFFF ∧
    (∀ (hmacF : List Nat → List Nat → List Nat) (tc : TOTP) (now digits : Nat)
      (offset : Int),
      TOTP.get_otp hmacF tc now digits offset =
        HOTPSecret.get_otp hmacF tc.secret
          (TOTP.num_to_buffer (effective_counter (TOTP.get_time tc now) offset)) digits) := by
  refine ⟨?_, by decide, fun _ _ _ _ _ => rfl⟩
  intro t offset h63 hlo hneg
  unfold effective_counter as_u64
  omega

/-- Witness for C10 at step index 0 and offset −1. -/
theorem c10_negative_counter_wraps_witness :
    (0 : Nat) < 2 ^ 63 ∧
      effective_counter 0 (-1) = ((2 ^ 64 : Int) + (((0 : Nat) : Int) + (-1))).toNat :=
  ⟨by decide, c10_negative_counter_wraps.1 0 (-1) (by decide) (by decide) (by decide)⟩
